import Mathlib

/-!
Shallow embedding of `bodhi/util.py`: package header extraction,
architecture eligibility, NVR decomposition, content hashing,
metadata-directory generation, the synchronization decorator and the
repo-tag resolver, together with theorems settling the specification
claims about them.

Python strings are modelled as `List Char` (`PyStr`) wherever
character-level behaviour matters, and as Lean `String` where only
equality is used.  Python exceptions are modelled by the `PyExc`
inductive and fallible code returns `Except PyExc _`.
-/

namespace Bodhi

/-- Python exceptions that appear in `util.py` or are raised by the
library calls it makes. -/
inductive PyExc where
  | osError
  | typeError
  | rpmNotFound
  | indexError
  | ioError
  deriving DecidableEq, Repr

/-- Python strings, modelled as lists of characters. -/
abbrev PyStr := List Char

/-- The slice of an RPM header consumed by `util.py`: the
`RPMTAG_EXCLUDEARCH` and `RPMTAG_EXCLUSIVEARCH` tag lists.  An absent
tag is the empty list, as in rpm-python. -/
structure Header where
  excludeArch : List String
  exclusiveArch : List String
  deriving DecidableEq, Repr

/-- Embedding of `excluded_arch(rpmheader, arch)`:

    excluded = rpmheader[rpm.RPMTAG_EXCLUDEARCH]
    exclusive = rpmheader[rpm.RPMTAG_EXCLUSIVEARCH]
    return (excluded and arch in excluded) or \
           (exclusive and arch not in exclusive)

Python truthiness of a list is non-emptiness, so `excluded and arch in
excluded` is truthy exactly when `excluded` is non-empty and contains
`arch`, and similarly for the `exclusive` conjunct. -/
def excluded_arch (rpmheader : Header) (arch : String) : Bool :=
  let excluded := rpmheader.excludeArch
  let exclusive := rpmheader.exclusiveArch
  (!excluded.isEmpty && excluded.contains arch) ||
    (!exclusive.isEmpty && !exclusive.contains arch)

example : excluded_arch ⟨[], ["x86_64"]⟩ "i686" = true := by decide
example : excluded_arch ⟨["s390"], []⟩ "s390" = true := by decide
example : excluded_arch ⟨[], []⟩ "ppc64" = false := by decide

/-- C1: the evaluator reports exclusion iff the architecture is in
`excludeArch`, or `exclusiveArch` is non-empty and the architecture is
not in it; and with both sets empty every architecture is eligible. -/
theorem excluded_arch_spec (excl only : List String) (arch : String) :
    (excluded_arch ⟨excl, only⟩ arch = true ↔
      arch ∈ excl ∨ (only ≠ [] ∧ arch ∉ only)) ∧
    excluded_arch ⟨[], []⟩ arch = false := by
  constructor
  · simp only [excluded_arch]
    simp [List.isEmpty_iff]
    constructor
    · rintro (⟨-, h⟩ | ⟨h1, h2⟩)
      · exact Or.inl h
      · exact Or.inr ⟨h1, h2⟩
    · rintro (h | ⟨h1, h2⟩)
      · exact Or.inl ⟨List.ne_nil_of_mem h, h⟩
      · exact Or.inr ⟨h1, h2⟩
  · simp [excluded_arch]

/-- C4 counterexample: with `exclusiveArch = {x86_64}` and
`excludeArch = {x86_64}`, the architecture `x86_64` is a member of the
non-empty `exclusiveArch` set, yet the evaluator reports it excluded:
`excludeArch` is checked first, so membership in `exclusiveArch` does
not decide eligibility regardless of `excludeArch`. -/
theorem excluded_arch_not_exclusive_only :
    excluded_arch ⟨["x86_64"], ["x86_64"]⟩ "x86_64" = true ∧
    "x86_64" ∈ ["x86_64"] ∧ (["x86_64"] : List String) ≠ [] := by
  refine ⟨by decide, by decide, by decide⟩

/-- C4 amended: with a non-empty `exclusiveArch` set, an architecture is
eligible iff it is a member of `exclusiveArch` and not a member of
`excludeArch`. -/
theorem excluded_arch_exclusive_amended (excl only : List String)
    (arch : String) (h : only ≠ []) :
    excluded_arch ⟨excl, only⟩ arch = false ↔
      arch ∈ only ∧ arch ∉ excl := by
  have hspec := (excluded_arch_spec excl only arch).1
  constructor
  · intro hfalse
    have hnot : ¬(arch ∈ excl ∨ (only ≠ [] ∧ arch ∉ only)) := by
      intro hmem
      rw [hspec.mpr hmem] at hfalse
      exact absurd hfalse (by simp)
    push_neg at hnot
    exact ⟨hnot.2 h, hnot.1⟩
  · rintro ⟨hin, hout⟩
    rcases hb : excluded_arch ⟨excl, only⟩ arch with _ | _
    · rfl
    · rcases hspec.mp hb with hc | ⟨-, hc⟩
      · exact absurd hc hout
      · exact absurd hin hc

/-- C4 amended witness at a concrete input. -/
theorem excluded_arch_exclusive_amended_witness :
    excluded_arch ⟨["s390"], ["x86_64", "i686"]⟩ "i686" = false ↔
      "i686" ∈ ["x86_64", "i686"] ∧ "i686" ∉ ["s390"] :=
  excluded_arch_exclusive_amended ["s390"] ["x86_64", "i686"] "i686"
    (by decide)

/-- Embedding of `get_nvr(nvr)`:

    x = nvr.split('-')
    return ['-'.join(x[:-2]), x[-2], x[-1]]

Python `x[:-2]` is `take (length - 2)`; negative indexing `x[-2]`,
`x[-1]` raises `IndexError` when the split has fewer than two fields,
modelled by the `Except.error` branch. -/
def get_nvr (nvr : PyStr) : Except PyExc (List PyStr) :=
  let x := nvr.splitOn '-'
  if h : 2 ≤ x.length then
    Except.ok [List.intercalate ['-'] (x.take (x.length - 2)),
      x.get ⟨x.length - 2, by omega⟩, x.get ⟨x.length - 1, by omega⟩]
  else
    Except.error PyExc.indexError

example : get_nvr "foo-bar-1.2-3".toList =
    Except.ok ["foo-bar".toList, "1.2".toList, "3".toList] := by rfl

/-- Dropping `i` elements of a list of length `i + 2` leaves exactly the
two last elements. -/
theorem drop_pair {α : Type} (l : List α) (i : Nat) (hi : i + 2 = l.length) :
    l.drop i = [l.get ⟨i, by omega⟩, l.get ⟨i + 1, by omega⟩] := by
  have e1 := List.drop_eq_getElem_cons (l := l) (n := i) (by omega)
  have e2 := List.drop_eq_getElem_cons (l := l) (n := i + 1) (by omega)
  have e3 : l.drop (i + 1 + 1) = [] := by
    apply List.drop_eq_nil_of_le
    omega
  rw [e1, e2, e3]
  simp [List.get_eq_getElem]

/-- A list of length at least two is its first `length - 2` elements
followed by its last two elements. -/
theorem take_get_get {α : Type} (l : List α) (h : 2 ≤ l.length) :
    l.take (l.length - 2) ++
      [l.get ⟨l.length - 2, by omega⟩, l.get ⟨l.length - 1, by omega⟩] = l := by
  have hd := drop_pair l (l.length - 2) (by omega)
  have hfin : (⟨l.length - 2 + 1, by omega⟩ : Fin l.length) = ⟨l.length - 1, by omega⟩ := by
    simp only [Fin.mk.injEq]
    omega
  rw [hfin] at hd
  rw [← hd, List.take_append_drop]

/-- Appending one more piece before joining inserts one more separator. -/
theorem intercalate_snoc {α : Type} (sep a : List α) (xs : List (List α)) (h : xs ≠ []) :
    List.intercalate sep (xs ++ [a]) = List.intercalate sep xs ++ sep ++ a := by
  induction xs with
  | nil => exact absurd rfl h
  | cons b t ih =>
    cases t with
    | nil => simp [List.intercalate, List.intersperse]
    | cons c t2 =>
      have h2 := ih (by simp)
      simp only [List.intercalate] at h2 ⊢
      simp only [List.cons_append, List.intersperse_cons_cons, List.flatten_cons] at h2 ⊢
      rw [h2]
      simp [List.append_assoc]

/-- C3: for an identity string with at least three hyphen-separated
fields, `get_nvr` returns release = last field, version =
second-to-last field, name = the preceding fields rejoined with
hyphens, and `name ++ "-" ++ version ++ "-" ++ release` reproduces the
input exactly. -/
theorem get_nvr_spec (s : PyStr) (h : 3 ≤ (s.splitOn '-').length) :
    ∃ (name ver rel : PyStr),
      get_nvr s = Except.ok [name, ver, rel] ∧
      (s.splitOn '-').getLast? = some rel ∧
      (s.splitOn '-').dropLast.getLast? = some ver ∧
      name = List.intercalate ['-']
        ((s.splitOn '-').take ((s.splitOn '-').length - 2)) ∧
      name ++ ['-'] ++ ver ++ ['-'] ++ rel = s := by
  set l := s.splitOn '-' with hl
  have h2 : 2 ≤ l.length := by omega
  refine ⟨List.intercalate ['-'] (l.take (l.length - 2)),
    l.get ⟨l.length - 2, by omega⟩, l.get ⟨l.length - 1, by omega⟩, ?_, ?_, ?_, rfl, ?_⟩
  · simp only [get_nvr]
    rw [dif_pos h2]
  · rw [List.getLast?_eq_getElem?, List.getElem?_eq_getElem (by omega)]
    simp only [List.get_eq_getElem]
  · rw [List.getLast?_eq_getElem?, List.length_dropLast,
      List.getElem?_eq_getElem (by simp [List.length_dropLast]; omega)]
    simp only [List.getElem_dropLast, List.get_eq_getElem, Option.some.injEq]
    congr 1
  · have htake : l.take (l.length - 2) ≠ [] := by
      have : (l.take (l.length - 2)).length = l.length - 2 := by
        rw [List.length_take]
        omega
      intro hnil
      rw [hnil] at this
      simp at this
      omega
    have hsnoc1 := intercalate_snoc ['-'] (l.get ⟨l.length - 1, by omega⟩)
      (l.take (l.length - 2) ++ [l.get ⟨l.length - 2, by omega⟩]) (by
        intro hc
        exact absurd (List.append_eq_nil.mp hc).2 (by simp))
    have hsnoc2 := intercalate_snoc ['-'] (l.get ⟨l.length - 2, by omega⟩)
      (l.take (l.length - 2)) htake
    have hdecomp := take_get_get l h2
    calc List.intercalate ['-'] (l.take (l.length - 2)) ++ ['-'] ++
          l.get ⟨l.length - 2, by omega⟩ ++ ['-'] ++ l.get ⟨l.length - 1, by omega⟩
        = List.intercalate ['-'] ((l.take (l.length - 2) ++
            [l.get ⟨l.length - 2, by omega⟩]) ++ [l.get ⟨l.length - 1, by omega⟩]) := by
          rw [hsnoc1, hsnoc2]
      _ = List.intercalate ['-'] l := by
          rw [List.append_assoc]
          simp only [List.singleton_append] at hdecomp ⊢
          rw [hdecomp]
      _ = s := by
          rw [hl]
          exact List.intercalate_splitOn s '-'

/-- C3 witness at the concrete input of the specification example. -/
theorem get_nvr_spec_witness :
    3 ≤ (("foo-bar-1.2-3".toList : PyStr).splitOn '-').length ∧
    ∃ (name ver rel : PyStr),
      get_nvr "foo-bar-1.2-3".toList = Except.ok [name, ver, rel] ∧
      (("foo-bar-1.2-3".toList : PyStr).splitOn '-').getLast? = some rel ∧
      (("foo-bar-1.2-3".toList : PyStr).splitOn '-').dropLast.getLast? = some ver ∧
      name = List.intercalate ['-']
        ((("foo-bar-1.2-3".toList : PyStr).splitOn '-').take
          ((("foo-bar-1.2-3".toList : PyStr).splitOn '-').length - 2)) ∧
      name ++ ['-'] ++ ver ++ ['-'] ++ rel = "foo-bar-1.2-3".toList :=
  ⟨by decide, get_nvr_spec "foo-bar-1.2-3".toList (by decide)⟩

/-- State of the file-descriptor table of the process: the set of open
descriptors and the next descriptor number `os.open` would hand out. -/
structure FdState where
  openFds : List Nat
  nextFd : Nat
  deriving DecidableEq, Repr

/-- Model of the package filesystem seen by `rpm_fileheader`:
`none` means `os.open` raises `OSError` (missing path); `some none`
means the path opens but the rpm library raises while parsing the
header (malformed package); `some (some h)` means the header `h` is
parsed successfully. -/
def PkgFS := String → Option (Option Header)

/-- Model of `os.open(path, 0)`: raises `OSError` on a missing path,
otherwise allocates a fresh descriptor. -/
def os_open (fs : PkgFS) (path : String) (s : FdState) :
    Except PyExc (Nat × FdState) :=
  match fs path with
  | none => Except.error PyExc.osError
  | some _ => Except.ok (s.nextFd, ⟨s.nextFd :: s.openFds, s.nextFd + 1⟩)

/-- Model of `os.close(fd)`. -/
def os_close (fd : Nat) (s : FdState) : FdState :=
  ⟨s.openFds.erase fd, s.nextFd⟩

/-- Model of the rpm library reading a header from the descriptor:
`rpm.headerFromPackage(fd)[0]` on the legacy API and
`ts.hdrFromFdno(fd)` on the transaction API; both raise `TypeError`
when no header can be parsed from the open file. -/
def hdr_from_fd (fs : PkgFS) (path : String) : Except PyExc Header :=
  match fs path with
  | some (some h) => Except.ok h
  | _ => Except.error PyExc.typeError

/-- Embedding of `rpm_fileheader(pkgpath)`:

    is_oldrpm = hasattr(rpm, 'opendb')
    try:
        fd = os.open(pkgpath,0)
        if is_oldrpm:
            h = rpm.headerFromPackage(fd)[0]
        else:
            ts = rpm.TransactionSet()
            h = ts.hdrFromFdno(fd)
            del ts
    except (OSError, TypeError):
        raise RPMNotFound
    os.close(fd)
    return h

The `except` clause turns both `OSError` and `TypeError` into
`RPMNotFound`.  `os.close(fd)` sits after the `try` statement, so it
runs only when the `try` body completes. -/
def rpm_fileheader (is_oldrpm : Bool) (fs : PkgFS) (pkgpath : String)
    (s : FdState) : Except PyExc Header × FdState :=
  let tryRun : Except PyExc Header × FdState :=
    match os_open fs pkgpath s with
    | Except.error _ => (Except.error PyExc.osError, s)
    | Except.ok (fd, s1) =>
      match (if is_oldrpm then hdr_from_fd fs pkgpath else hdr_from_fd fs pkgpath) with
      | Except.error e => (Except.error e, s1)
      | Except.ok h => (Except.ok h, os_close fd s1)
  match tryRun with
  | (Except.error PyExc.osError, s2) => (Except.error PyExc.rpmNotFound, s2)
  | (Except.error PyExc.typeError, s2) => (Except.error PyExc.rpmNotFound, s2)
  | r => r

/-- A filesystem with one package whose header cannot be parsed. -/
def malformedFS : PkgFS :=
  fun path => if path = "/repo/bad.rpm" then some none else none

/-- C2: the claim fails on the code.  On the path where the package
file opens but its header cannot be parsed, `rpm_fileheader` raises
`RPMNotFound` from the `except` clause without ever reaching
`os.close(fd)`: the call returns with descriptor 0 still open, a
descriptor leak. -/
theorem rpm_fileheader_leaks_fd :
    (rpm_fileheader false malformedFS "/repo/bad.rpm" ⟨[], 0⟩).1 =
      Except.error PyExc.rpmNotFound ∧
    (rpm_fileheader false malformedFS "/repo/bad.rpm" ⟨[], 0⟩).2.openFds = [0] := by
  constructor
  · rfl
  · rfl

/-- C5: `rpm_fileheader` fails exactly when the file cannot be opened
or the header cannot be parsed, and in both cases the surfaced error is
the single value `RPMNotFound`: the caller cannot distinguish a missing
file from a malformed one, and no other error value ever escapes. -/
theorem rpm_fileheader_error_spec (is_oldrpm : Bool) (fs : PkgFS)
    (pkgpath : String) (s : FdState) :
    ((rpm_fileheader is_oldrpm fs pkgpath s).1 =
        Except.error PyExc.rpmNotFound ↔
      fs pkgpath = none ∨ fs pkgpath = some none) ∧
    ((rpm_fileheader is_oldrpm fs pkgpath s).1 =
        Except.error PyExc.rpmNotFound ∨
      ∃ h, (rpm_fileheader is_oldrpm fs pkgpath s).1 = Except.ok h) := by
  rcases hfs : fs pkgpath with _ | ⟨_ | hdr⟩ <;>
    simp [rpm_fileheader, os_open, hdr_from_fd, hfs]

/-- Truncation to a 32-bit machine word. -/
def w32 (n : Nat) : Nat := n % 4294967296

/-- 32-bit left rotation. -/
def rotl32 (b n : Nat) : Nat :=
  w32 (Nat.shiftLeft n b) ||| Nat.shiftRight (w32 n) (32 - b)

/-- Fuel-driven worker for `chunks64`; the fuel is an upper bound on
the number of blocks, so `chunks64` passes the list length. -/
def chunks64Go (fuel : Nat) (l : List Nat) : List (List Nat) :=
  match fuel, l with
  | 0, _ => []
  | _, [] => []
  | fuel + 1, l => (l.take 64) :: chunks64Go fuel (l.drop 64)

/-- Split a byte list into 64-byte blocks. -/
def chunks64 (l : List Nat) : List (List Nat) :=
  chunks64Go l.length l

/-- Read sixteen 32-bit big-endian words from a 64-byte block. -/
def wordsOf (chunk : List Nat) : List Nat :=
  (List.range 16).map (fun i =>
    (chunk.getD (4 * i) 0) * 16777216 + (chunk.getD (4 * i + 1) 0) * 65536 +
    (chunk.getD (4 * i + 2) 0) * 256 + chunk.getD (4 * i + 3) 0)

/-- Extend the sixteen schedule words by `i` more words. -/
def extendWords (w : List Nat) (i : Nat) : List Nat :=
  match i with
  | 0 => w
  | j + 1 =>
    let w1 := extendWords w j
    let k := w1.length
    w1 ++ [rotl32 1 (Nat.xor (Nat.xor (w1.getD (k - 3) 0) (w1.getD (k - 8) 0))
      (Nat.xor (w1.getD (k - 14) 0) (w1.getD (k - 16) 0)))]

/-- The SHA-1 round function. -/
def sha1F (i b c d : Nat) : Nat :=
  if i < 20 then (b &&& c) ||| ((Nat.xor b 4294967295) &&& d)
  else if i < 40 then Nat.xor (Nat.xor b c) d
  else if i < 60 then (b &&& c) ||| (b &&& d) ||| (c &&& d)
  else Nat.xor (Nat.xor b c) d

/-- The SHA-1 round constants. -/
def sha1K (i : Nat) : Nat :=
  if i < 20 then 1518500249
  else if i < 40 then 1859775393
  else if i < 60 then 2400959708
  else 3395469782

/-- One SHA-1 round on the five-word state. -/
def sha1Round (w : List Nat) (st : Nat × Nat × Nat × Nat × Nat) (i : Nat) :
    Nat × Nat × Nat × Nat × Nat :=
  match st with
  | (a, b, c, d, e) =>
    let temp := w32 (rotl32 5 a + sha1F i b c d + e + sha1K i + w.getD i 0)
    (temp, a, rotl32 30 b, c, d)

/-- Compress one 64-byte block into the running hash state. -/
def sha1Chunk (hs : List Nat) (chunk : List Nat) : List Nat :=
  let w := extendWords (wordsOf chunk) 64
  let init := (hs.getD 0 0, hs.getD 1 0, hs.getD 2 0, hs.getD 3 0, hs.getD 4 0)
  match (List.range 80).foldl (sha1Round w) init with
  | (a, b, c, d, e) =>
    [w32 (hs.getD 0 0 + a), w32 (hs.getD 1 0 + b), w32 (hs.getD 2 0 + c),
     w32 (hs.getD 3 0 + d), w32 (hs.getD 4 0 + e)]

/-- SHA-1 message padding: a 1-bit, zeros to 56 mod 64, and the 64-bit
big-endian bit length. -/
def sha1Pad (msg : List Nat) : List Nat :=
  let len := msg.length
  let k := (120 - ((len + 1) % 64)) % 64
  let ml := 8 * len
  msg ++ [128] ++ List.replicate k 0 ++
    (List.range 8).map (fun i => (ml / 2 ^ (8 * (7 - i))) % 256)

/-- The five 32-bit words of the SHA-1 digest of a byte sequence. -/
def sha1Words (msg : List Nat) : List Nat :=
  (chunks64 (sha1Pad msg)).foldl sha1Chunk
    [1732584193, 4023233417, 2562383102, 271733878, 3285377520]

/-- Lower-case hexadecimal digit. -/
def hexDigit (n : Nat) : Char :=
  if n < 10 then Char.ofNat (48 + n) else Char.ofNat (87 + n)

/-- Eight hex characters of one 32-bit word, most significant first. -/
def hex8 (wd : Nat) : List Char :=
  (List.range 8).map (fun i => hexDigit ((wd / 16 ^ (7 - i)) % 16))

/-- The hex-encoded SHA-1 digest of a byte sequence: the model of
`sha.new(data).hexdigest()` from the Python `sha` library. -/
def sha1Hex (msg : List Nat) : List Char :=
  ((sha1Words msg).map hex8).flatten

set_option maxRecDepth 8000 in
example : sha1Hex [] = "da39a3ee5e6b4b0d3255bfef95601890afd80709".toList := by
  decide

set_option maxRecDepth 8000 in
example : sha1Hex ("abc".toList.map Char.toNat) =
    "a9993e364706816aba3e25717850c26c9cd0d89d".toList := by
  decide

/-- Embedding of `sha1sum(file)` (the function first does a local
`import` of the `sha` library module):

    fd = open(file)
    hash = sha.new(fd.read())
    fd.close()
    return hash.hexdigest()

The file table `fs` maps a path to its full byte content; a path that
cannot be opened or read raises `IOError`.  `fd.read()` reads the
entire content at once, so the digest is computed from the full byte
content of the file. -/
def sha1sum (fs : String → Option (List Nat)) (file : String) :
    Except PyExc PyStr :=
  match fs file with
  | none => Except.error PyExc.ioError
  | some content => Except.ok (sha1Hex content)

/-- C9: the hasher is deterministic and the digest depends only on the
file's bytes: whenever two files (possibly under different paths, in
different file tables, or hashed at different invocations) hold the
same byte content, `sha1sum` produces identical hex digest strings. -/
theorem sha1sum_deterministic (fs1 fs2 : String → Option (List Nat))
    (f1 f2 : String) (h : fs1 f1 = fs2 f2) :
    sha1sum fs1 f1 = sha1sum fs2 f2 := by
  unfold sha1sum
  rw [h]

/-- C9 witness: the same three-byte content under two different paths
in two different file tables hashes to the same digest string. -/
theorem sha1sum_deterministic_witness :
    (fun p => if p = "/repo/a.rpm" then some [1, 2, 3] else none : String → Option (List Nat)) "/repo/a.rpm" =
      (fun p => if p = "/repo/b.rpm" then some [1, 2, 3] else none : String → Option (List Nat)) "/repo/b.rpm" ∧
    sha1sum (fun p => if p = "/repo/a.rpm" then some [1, 2, 3] else none) "/repo/a.rpm" =
      sha1sum (fun p => if p = "/repo/b.rpm" then some [1, 2, 3] else none) "/repo/b.rpm" :=
  ⟨by simp, sha1sum_deterministic _ _ _ _ (by simp)⟩

/-- Observable side effects of `mkmetadatadir`: directory creations and
invocations of the external indexer `genpkgmetadata.main`. -/
inductive Ev where
  | mkdir (d : String)
  | invoke (args : List String)
  deriving DecidableEq, Repr

/-- Whether an event is an invocation of the external indexer. -/
def Ev.isInvoke : Ev → Bool
  | Ev.invoke _ => true
  | _ => false

/-- The chain of parent prefixes of a slash-separated path, shortest
first and ending with the path itself: the directories `os.makedirs`
creates when none of them exists. -/
def pathChain (d : String) : List String :=
  let parts := d.splitOn "/"
  ((List.range (parts.length - 1)).map
    (fun i => String.intercalate "/" (parts.take (i + 1)))) ++ [d]

/-- Model of `os.makedirs(d)`: creates the directory and every missing
parent segment, parents first. -/
def makedirs (d : String) (dirs : List String) : List String × List Ev :=
  ((pathChain d).filter (fun p => !dirs.contains p) ++ dirs,
    ((pathChain d).filter (fun p => !dirs.contains p)).map Ev.mkdir)

/-- Embedding of `mkmetadatadir(dir)`:

    if not isdir(dir):
        os.makedirs(dir)
    cache = config.get('createrepo_cache_dir')
    genpkgmetadata.main(['--cachedir', str(cache), '-q', str(dir)])

The state is the list of existing directories; the returned event list
records, in order, the directory creations and the one call to the
external indexer. -/
def mkmetadatadir (cache : String) (dir : String) (dirs : List String) :
    List String × List Ev :=
  let created := if dirs.contains dir then (dirs, ([] : List Ev)) else makedirs dir dirs
  (created.1, created.2 ++ [Ev.invoke ["--cachedir", cache, "-q", dir]])

/-- C7: for every directory path, `mkmetadatadir` invokes the external
indexer exactly once, as the last event, with exactly the argument list
`['--cachedir', cache, '-q', dir]`; when the directory does not exist
it is first created together with its missing parent segments, and when
it already exists nothing is created. -/
theorem mkmetadatadir_spec (cache dir : String) (dirs : List String) :
    (dirs.contains dir = false →
      dir ∈ (mkmetadatadir cache dir dirs).1 ∧
      ∀ p ∈ pathChain dir, p ∈ (mkmetadatadir cache dir dirs).1) ∧
    (dirs.contains dir = true → (mkmetadatadir cache dir dirs).1 = dirs) ∧
    ((mkmetadatadir cache dir dirs).2.filter Ev.isInvoke =
      [Ev.invoke ["--cachedir", cache, "-q", dir]]) ∧
    ((mkmetadatadir cache dir dirs).2.getLast? =
      some (Ev.invoke ["--cachedir", cache, "-q", dir])) := by
  refine ⟨?_, ?_, ?_, ?_⟩
  · intro h
    have hmem : ∀ p ∈ pathChain dir, p ∈ (mkmetadatadir cache dir dirs).1 := by
      intro p hp
      simp only [mkmetadatadir, makedirs, h, if_false, Bool.false_eq_true]
      simp only [List.mem_append, List.mem_filter]
      cases hb : dirs.contains p with
      | true => exact Or.inr (List.mem_of_elem_eq_true hb)
      | false => exact Or.inl ⟨hp, by rfl⟩
    have hlast : dir ∈ pathChain dir := by
      simp [pathChain]
    exact ⟨hmem dir hlast, hmem⟩
  · intro h
    simp only [mkmetadatadir]
    rw [if_pos h]
  · cases hb : dirs.contains dir with
    | true =>
      simp only [mkmetadatadir]
      rw [if_pos hb]
      rfl
    | false =>
      simp only [mkmetadatadir, makedirs, hb, if_false, Bool.false_eq_true]
      rw [List.filter_append]
      have : (((pathChain dir).filter (fun p => !dirs.contains p)).map Ev.mkdir).filter
          Ev.isInvoke = [] := by
        rw [List.filter_map]
        have : Ev.isInvoke ∘ Ev.mkdir = fun _ => false := by
          funext d
          rfl
        rw [this]
        simp
      rw [this]
      rfl
  · simp [mkmetadatadir]

/-- C7 witness: a fresh directory with one missing parent is created
and indexed; an already-existing directory is left alone and indexed
again without error. -/
theorem mkmetadatadir_spec_witness :
    (("/repo/f30" : String) ∈ (mkmetadatadir "/cache" "/repo/f30" []).1 ∧
      ∀ p ∈ pathChain "/repo/f30", p ∈ (mkmetadatadir "/cache" "/repo/f30" []).1) ∧
    ((mkmetadatadir "/cache" "/repo/f30" []).2.filter Ev.isInvoke =
      [Ev.invoke ["--cachedir", "/cache", "-q", "/repo/f30"]]) ∧
    ((mkmetadatadir "/cache" "/repo/f30" []).2.getLast? =
      some (Ev.invoke ["--cachedir", "/cache", "-q", "/repo/f30"])) ∧
    (mkmetadatadir "/cache" "/repo/f30" ["/repo", "/repo/f30"]).1 =
      ["/repo", "/repo/f30"] ∧
    ((mkmetadatadir "/cache" "/repo/f30" ["/repo", "/repo/f30"]).2.filter Ev.isInvoke =
      [Ev.invoke ["--cachedir", "/cache", "-q", "/repo/f30"]]) :=
  ⟨(mkmetadatadir_spec "/cache" "/repo/f30" []).1 (by decide),
   (mkmetadatadir_spec "/cache" "/repo/f30" []).2.2.1,
   (mkmetadatadir_spec "/cache" "/repo/f30" []).2.2.2,
   (mkmetadatadir_spec "/cache" "/repo/f30" ["/repo", "/repo/f30"]).2.1 (by decide),
   (mkmetadatadir_spec "/cache" "/repo/f30" ["/repo", "/repo/f30"]).2.2.1⟩

/-- Lock-protocol events emitted by the `synchronized` wrapper. -/
inductive LockEv where
  | acquire
  | call
  | release
  deriving DecidableEq, Repr

/-- Embedding of `synchronized(lock)`:

    def wrap(f):
        def new(*args, **kw):
            lock.acquire()
            try:
                return f(*args, **kw)
            finally:
                lock.release()
        return new
    return wrap

A Python callable is modelled as `σ → Except PyExc α × σ`: it either
returns a value or raises, transforming the state either way.  The
wrapper returns, besides the callable's own outcome and state, the
ordered trace of lock events around the call: the `finally` clause
releases the lock on the normal path and on the raising path alike. -/
def synchronized {σ α : Type} (f : σ → Except PyExc α × σ) (s : σ) :
    Except PyExc α × σ × List LockEv :=
  match f s with
  | (Except.ok v, s1) =>
    (Except.ok v, s1, [LockEv.acquire, LockEv.call, LockEv.release])
  | (Except.error e, s1) =>
    (Except.error e, s1, [LockEv.acquire, LockEv.call, LockEv.release])

/-- C8: the wrapped callable produces exactly the result and state of
the unwrapped one (value on normal return, the raised exception
otherwise), and the lock trace is acquire, then the call, then release,
on every path including the raising one. -/
theorem synchronized_spec {σ α : Type} (f : σ → Except PyExc α × σ) (s : σ) :
    (synchronized f s).1 = (f s).1 ∧
    (synchronized f s).2.1 = (f s).2 ∧
    (synchronized f s).2.2 = [LockEv.acquire, LockEv.call, LockEv.release] := by
  rcases hf : f s with ⟨r, s1⟩
  rcases r with e | v <;> simp [synchronized, hf]

/-- Model of Python `str.split()` with no argument: split on runs of
whitespace, discarding empty fields and leading/trailing whitespace. -/
def pySplit (s : PyStr) : List PyStr :=
  (s.splitOnP (fun c => c.isWhitespace)).filter (fun t => !t.isEmpty)

example : pySplit "tag = f30-updates\n".toList =
    ["tag".toList, "=".toList, "f30-updates".toList] := by decide

/-- `pySplit` of an all-whitespace string is empty. -/
theorem pySplit_all_ws (w : PyStr) (hw : ∀ c ∈ w, c.isWhitespace) :
    pySplit w = [] := by
  induction w with
  | nil => rfl
  | cons c t ih =>
    have hc : c.isWhitespace := hw c (by simp)
    have ht : ∀ x ∈ t, x.isWhitespace := fun x hx => hw x (by simp [hx])
    simp only [pySplit, List.splitOnP_cons, hc, if_true]
    rw [List.filter_cons]
    simp only [List.isEmpty_nil, Bool.not_true, if_false]
    exact ih ht

/-- `pySplit` of one whitespace-free token followed by trailing
whitespace is that single token. -/
theorem pySplit_token_ws (v w : PyStr) (hv : v ≠ [])
    (hnv : ∀ c ∈ v, ¬c.isWhitespace) (hw : ∀ c ∈ w, c.isWhitespace) :
    pySplit (v ++ w) = [v] := by
  have hvb : (!v.isEmpty) = true := by
    simp [List.isEmpty_iff, hv]
  cases w with
  | nil =>
    simp only [List.append_nil, pySplit]
    rw [List.splitOnP_eq_single _ v hnv, List.filter_cons, if_pos hvb]
    rfl
  | cons c w2 =>
    have hc : c.isWhitespace = true := hw c (by simp)
    have hw2 : ∀ x ∈ w2, x.isWhitespace := fun x hx => hw x (by simp [hx])
    simp only [pySplit]
    rw [List.splitOnP_first _ v hnv c hc w2, List.filter_cons, if_pos hvb]
    have := pySplit_all_ws w2 hw2
    simp only [pySplit] at this
    rw [this]

/-- `pySplit` of a canonical `tag = <value>` line (value non-empty and
whitespace-free, then trailing whitespace such as the newline kept by
`readlines`) is the three tokens `tag`, `=`, value. -/
theorem pySplit_tag_line (v w : PyStr) (hv : v ≠ [])
    (hnv : ∀ c ∈ v, ¬c.isWhitespace) (hw : ∀ c ∈ w, c.isWhitespace) :
    pySplit ("tag = ".toList ++ v ++ w) =
      ["tag".toList, "=".toList, v] := by
  have h1 : ("tag = ".toList ++ v ++ w : PyStr) =
      "tag".toList ++ ' ' :: ("=".toList ++ ' ' :: (v ++ w)) := by
    simp
  rw [h1]
  simp only [pySplit]
  rw [List.splitOnP_first _ "tag".toList (by decide) ' ' (by decide)]
  rw [List.splitOnP_first _ "=".toList (by decide) ' ' (by decide)]
  rw [List.filter_cons, List.filter_cons]
  have h2 := pySplit_token_ws v w hv hnv hw
  simp only [pySplit] at h2
  rw [h2]
  simp

/-- Model of `os.path.dirname`: everything before the last slash. -/
def dirname (p : PyStr) : PyStr :=
  List.intercalate ['/'] ((p.splitOn '/').dropLast)

/-- Model of `os.path.basename`: everything after the last slash. -/
def basename (p : PyStr) : PyStr :=
  (p.splitOn '/').getLastD []

/-- Model of `os.path.join` for a relative second component. -/
def pyJoin (a b : PyStr) : PyStr :=
  if a = [] then b else a ++ ['/'] ++ b

/-- Embedding of `get_repo_tag(repo)`:

    mashconfig = join(dirname(config.get('mash_conf')), basename(repo)+'.mash')
    if isfile(mashconfig):
        mashconfig = file(mashconfig, 'r')
        lines = mashconfig.readlines()
        mashconfig.close()
        return filter(lambda x: x.startswith('tag ='), lines)[0].split()[-1]
    else:
        log.error("Cannot find mash configuration for %s: %s" % ...)

`fs` maps a path to the list of its lines (`readlines`), `none` when
`isfile` is false.  The returned `Bool` records whether `log.error` was
called.  `[0]` on an empty filter result and `[-1]` on an empty token
list raise `IndexError`.  When the file is absent the function logs and
falls off the end, returning `None` without raising. -/
def get_repo_tag (mash_conf : PyStr) (fs : PyStr → Option (List PyStr))
    (repo : PyStr) : Except PyExc (Option PyStr) × Bool :=
  let mashconfig := pyJoin (dirname mash_conf) (basename repo ++ ".mash".toList)
  match fs mashconfig with
  | some lines =>
    match lines.filter (fun x => ("tag =".toList).isPrefixOf x) with
    | [] => (Except.error PyExc.indexError, false)
    | l :: _ =>
      match (pySplit l).getLast? with
      | some tok => (Except.ok (some tok), false)
      | none => (Except.error PyExc.indexError, false)
  | none => (Except.ok none, true)

example : get_repo_tag "/etc/mash/mash.conf".toList
    (fun p => if p = "/etc/mash/f30-updates.mash".toList
      then some ["# comment\n".toList, "tag = f30-updates\n".toList] else none)
    "/mnt/koji/mash/f30-updates".toList =
    (Except.ok (some "f30-updates".toList), false) := by rfl

/-- C6: when the per-repository configuration file is absent,
`get_repo_tag` logs an error and returns no result without raising;
when the file is present, it returns the value following `tag =` on the
first line starting with that prefix (first match wins). -/
theorem get_repo_tag_spec (mash_conf : PyStr)
    (fs : PyStr → Option (List PyStr)) (repo : PyStr) :
    (fs (pyJoin (dirname mash_conf) (basename repo ++ ".mash".toList)) = none →
      get_repo_tag mash_conf fs repo = (Except.ok none, true)) ∧
    (∀ (lines : List PyStr) (v w : PyStr),
      fs (pyJoin (dirname mash_conf) (basename repo ++ ".mash".toList)) =
        some lines →
      (lines.filter (fun x => ("tag =".toList).isPrefixOf x)).head? =
        some ("tag = ".toList ++ v ++ w) →
      v ≠ [] → (∀ c ∈ v, ¬c.isWhitespace) → (∀ c ∈ w, c.isWhitespace) →
      get_repo_tag mash_conf fs repo = (Except.ok (some v), false)) := by
  constructor
  · intro hfs
    simp only [get_repo_tag, hfs]
  · intro lines v w hfs hhead hv hnv hw
    simp only [get_repo_tag, hfs]
    rcases hfilter : lines.filter (fun x => ("tag =".toList).isPrefixOf x) with
      _ | ⟨l, rest⟩
    · rw [hfilter] at hhead
      exact absurd hhead (by simp)
    · rw [hfilter] at hhead
      simp only [List.head?_cons, Option.some.injEq] at hhead
      subst hhead
      have hps := pySplit_tag_line v w hv hnv hw
      simp only [hps]
      rfl

/-- C6 witness: an absent file logs and returns `None`; a present file
whose first matching line is `tag = f30-updates` resolves the value. -/
theorem get_repo_tag_spec_witness :
    get_repo_tag "/etc/mash/mash.conf".toList (fun _ => none)
      "/mnt/koji/mash/f30-updates".toList = (Except.ok none, true) ∧
    get_repo_tag "/etc/mash/mash.conf".toList
      (fun _ => some ["tag = f30-updates\n".toList])
      "/mnt/koji/mash/f30-updates".toList =
      (Except.ok (some "f30-updates".toList), false) :=
  ⟨(get_repo_tag_spec "/etc/mash/mash.conf".toList (fun _ => none)
      "/mnt/koji/mash/f30-updates".toList).1 rfl,
   (get_repo_tag_spec "/etc/mash/mash.conf".toList
      (fun _ => some ["tag = f30-updates\n".toList])
      "/mnt/koji/mash/f30-updates".toList).2
     ["tag = f30-updates\n".toList] "f30-updates".toList ['\n']
     rfl (by decide) (by decide) (by decide) (by decide)⟩

/-- C10: when the configuration file exists but contains no line
starting with `tag =`, `get_repo_tag` raises `IndexError` (indexing the
empty list of matching lines with `[0]`) instead of logging and
returning no result. -/
theorem get_repo_tag_no_match (mash_conf : PyStr)
    (fs : PyStr → Option (List PyStr)) (repo : PyStr) (lines : List PyStr)
    (hfs : fs (pyJoin (dirname mash_conf) (basename repo ++ ".mash".toList)) =
      some lines)
    (hfilter : lines.filter (fun x => ("tag =".toList).isPrefixOf x) = []) :
    get_repo_tag mash_conf fs repo = (Except.error PyExc.indexError, false) := by
  simp only [get_repo_tag, hfs, hfilter]

/-- C10 witness: a config file with no `tag =` line raises. -/
theorem get_repo_tag_no_match_witness :
    get_repo_tag "/etc/mash/mash.conf".toList
      (fun _ => some ["# no tag here\n".toList])
      "/mnt/koji/mash/f30-updates".toList =
      (Except.error PyExc.indexError, false) :=
  get_repo_tag_no_match "/etc/mash/mash.conf".toList
    (fun _ => some ["# no tag here\n".toList])
    "/mnt/koji/mash/f30-updates".toList
    ["# no tag here\n".toList] rfl (by decide)

end Bodhi
